import Mathlib

/-!
Verification of the sales-dashboard filter/aggregation pipeline
(src/streamlit_1.py) against its design specification.

The pipeline is embedded shallowly:

* a pandas DataFrame row becomes a `Record`; the frame becomes a
  `List Record` (order and multiplicity preserved);
* `pd.Timestamp` order dates (midnight-normalised by `pd.to_datetime`)
  become `Date` triples with lexicographic order;
* float prices/revenues become exact rationals `ℚ`;
* the boolean-mask filter of lines 97-103 becomes `List.filter`;
* `value_counts`, `groupby(...).sum()`, `nlargest` and
  `groupby(pd.Grouper(freq=...))` are reproduced from pandas semantics:
  `value_counts` counts distinct values then sorts by count descending,
  plain `groupby` sorts keys ascending, and `Grouper(freq='D'/'M'/'Q')`
  bins over the *entire* span from the first to the last date of the
  view, labelling bins by day / month end / quarter end and producing a
  (zero-valued) row even for bins that contain no record.
-/

namespace Sales

/-- A calendar date (the `.date()` part of a pandas Timestamp).
Field order gives the lexicographic = chronological order. -/
structure Date where
  year : Nat
  month : Nat
  day : Nat
deriving DecidableEq, Repr

/-- Chronological `≤` on dates, decidable as a Bool. -/
def Date.ble (a b : Date) : Bool :=
  if a.year ≠ b.year then decide (a.year < b.year)
  else if a.month ≠ b.month then decide (a.month < b.month)
  else decide (a.day ≤ b.day)

/-- Chronological `<` on dates. -/
def Date.blt (a b : Date) : Bool := !(Date.ble b a)

theorem Date.ble_iff (a b : Date) : a.ble b = true ↔
    (a.year < b.year ∨ (a.year = b.year ∧
      (a.month < b.month ∨ (a.month = b.month ∧ a.day ≤ b.day)))) := by
  unfold Date.ble
  split_ifs <;> simp_all <;> omega

theorem Date.blt_iff (a b : Date) : a.blt b = true ↔
    (a.year < b.year ∨ (a.year = b.year ∧
      (a.month < b.month ∨ (a.month = b.month ∧ a.day < b.day)))) := by
  unfold Date.blt
  rw [Bool.not_eq_true', ← Bool.not_eq_true, ble_iff]
  constructor
  · intro h
    by_cases hy : a.year = b.year
    · by_cases hm : a.month = b.month
      · right; exact ⟨hy, Or.inr ⟨hm, by omega⟩⟩
      · rcases Nat.lt_or_ge a.month b.month with hlt | hge
        · right; exact ⟨hy, Or.inl hlt⟩
        · exact absurd (Or.inr ⟨hy.symm, Or.inl (by omega)⟩) h
    · rcases Nat.lt_or_ge a.year b.year with hlt | hge
      · exact Or.inl hlt
      · exact absurd (Or.inl (by omega)) h
  · intro h hc
    rcases h with h | ⟨hy, h⟩
    · rcases hc with hc | ⟨hc, _⟩ <;> omega
    · rcases h with h | ⟨hm, h⟩
      · rcases hc with hc | ⟨hc, hc2 | ⟨hc2, _⟩⟩ <;> omega
      · rcases hc with hc | ⟨hc, hc2 | ⟨hc2, hc3⟩⟩ <;> omega

theorem Date.ble_trans {a b c : Date} (h1 : a.ble b = true) (h2 : b.ble c = true) :
    a.ble c = true := by
  rw [ble_iff] at h1 h2 ⊢
  rcases h1 with h1 | ⟨e1, h1⟩ <;> rcases h2 with h2 | ⟨e2, h2⟩
  · omega
  · omega
  · omega
  · rcases h1 with h1 | ⟨f1, h1⟩ <;> rcases h2 with h2 | ⟨f2, h2⟩ <;>
      [skip; skip; skip; skip] <;> right <;> exact ⟨by omega, by omega⟩

theorem Date.ble_total (a b : Date) : a.ble b = true ∨ b.ble a = true := by
  rw [ble_iff, ble_iff]
  by_cases hy : a.year = b.year
  · by_cases hm : a.month = b.month
    · rcases Nat.le_total a.day b.day with h | h
      · exact Or.inl (Or.inr ⟨hy, Or.inr ⟨hm, h⟩⟩)
      · exact Or.inr (Or.inr ⟨hy.symm, Or.inr ⟨hm.symm, h⟩⟩)
    · rcases Nat.lt_or_ge a.month b.month with h | h
      · exact Or.inl (Or.inr ⟨hy, Or.inl h⟩)
      · exact Or.inr (Or.inr ⟨hy.symm, Or.inl (by omega)⟩)
  · rcases Nat.lt_or_ge a.year b.year with h | h
    · exact Or.inl (Or.inl h)
    · exact Or.inr (Or.inl (by omega))

theorem Date.ble_refl (a : Date) : a.ble a = true := by
  rw [ble_iff]; right; exact ⟨rfl, Or.inr ⟨rfl, Nat.le_refl _⟩⟩

/-- One row of the orders table, after `load_data` (src 50-57) has parsed
the date and established the column types.  The derived `revenue` column
is `quantity * price` (line 55) and is modelled by the function
`revenue` below, never stored. -/
structure Record where
  order_date : Date
  city : String
  product : String
  payment_method : String
  customer_name : String
  quantity : Nat
  price : ℚ
deriving DecidableEq, Repr

/-- Derived revenue of one order: `df['revenue'] = df['quantity'] * df['price']`
(src line 55). -/
def revenue (r : Record) : ℚ := (r.quantity : ℚ) * r.price

/-- The five filter criteria the sidebar produces (src 62-94): an inclusive
date range and the three multiselect lists. -/
structure Criteria where
  date_start : Date
  date_end : Date
  cities : List String
  products : List String
  payments : List String

/-- The conjunction of the five boolean masks of src lines 98-102:
`(order_date.date >= start) & (order_date.date <= end) & city.isin(cities)
& product.isin(products) & payment_method.isin(payments)`. -/
def matchesRec (c : Criteria) (r : Record) : Bool :=
  Date.ble c.date_start r.order_date && Date.ble r.order_date c.date_end &&
  c.cities.contains r.city && c.products.contains r.product &&
  c.payments.contains r.payment_method

/-- The Filter Engine: `filtered_data = data[mask]` (src 97-103), i.e. the
sub-dataframe of rows whose mask entry is True, in original order. -/
def apply (ds : List Record) (c : Criteria) : List Record :=
  ds.filter (fun r => matchesRec c r)

/-- `filtered_data['quantity'].sum()` (src line 111). -/
def total_quantity (v : List Record) : Nat := (v.map (fun r => r.quantity)).sum

/-- `filtered_data['revenue'].sum()` (src line 113). -/
def total_revenue (v : List Record) : ℚ := (v.map revenue).sum

/-- `filtered_data.shape[0]` (src line 115). -/
def order_count (v : List Record) : Nat := v.length

/-- `filtered_data['customer_name'].nunique()` (src line 117). -/
def unique_customer_count (v : List Record) : Nat :=
  (v.map (fun r => r.customer_name)).dedup.length

theorem matchesRec_iff (c : Criteria) (r : Record) : matchesRec c r = true ↔
    (Date.ble c.date_start r.order_date = true ∧
     Date.ble r.order_date c.date_end = true ∧
     r.city ∈ c.cities ∧ r.product ∈ c.products ∧
     r.payment_method ∈ c.payments) := by
  unfold matchesRec
  simp [Bool.and_assoc, List.elem_iff]

theorem mem_apply_iff (ds : List Record) (c : Criteria) (r : Record) :
    r ∈ apply ds c ↔ r ∈ ds ∧ matchesRec c r = true := by
  unfold apply; exact List.mem_filter

/-- Claim C1: `apply(dataset, criteria)` keeps exactly the records of the
dataset whose order date lies between `date_start` and `date_end` (both
inclusive) and whose city, product and payment method each belong to the
corresponding selected set; the five conditions are a logical AND. -/
theorem claim1_filter_is_exact_conjunction (ds : List Record) (c : Criteria) (r : Record) :
    r ∈ apply ds c ↔
      (r ∈ ds ∧
       Date.ble c.date_start r.order_date = true ∧
       Date.ble r.order_date c.date_end = true ∧
       r.city ∈ c.cities ∧ r.product ∈ c.products ∧
       r.payment_method ∈ c.payments) := by
  rw [mem_apply_iff, matchesRec_iff]

/-- Claim C2: vacuous criteria never raise — an empty city, product or
payment set, a reversed date range, or a date range that excludes every
record, each yields the empty view. -/
theorem claim2_vacuous_criteria_give_empty_view (ds : List Record) (c : Criteria)
    (h : c.cities = [] ∨ c.products = [] ∨ c.payments = [] ∨
         Date.blt c.date_end c.date_start = true ∨
         (∀ r ∈ ds, ¬(Date.ble c.date_start r.order_date = true ∧
                      Date.ble r.order_date c.date_end = true))) :
    apply ds c = [] := by
  apply List.filter_eq_nil_iff.mpr
  intro r hr
  rw [matchesRec_iff]
  intro ⟨h1, h2, h3, h4, h5⟩
  rcases h with h | h | h | h | h
  · rw [h] at h3; exact absurd h3 (List.not_mem_nil _)
  · rw [h] at h4; exact absurd h4 (List.not_mem_nil _)
  · rw [h] at h5; exact absurd h5 (List.not_mem_nil _)
  · have hse : Date.ble c.date_start c.date_end = true := Date.ble_trans h1 h2
    unfold Date.blt at h
    simp [hse] at h
  · exact h r hr ⟨h1, h2⟩

theorem claim2_witness :
    apply [⟨⟨2023, 1, 5⟩, "Paris", "A", "card", "X", 2, 10⟩]
      ⟨⟨2023, 1, 1⟩, ⟨2023, 12, 31⟩, [], ["A"], ["card"]⟩ = [] :=
  claim2_vacuous_criteria_give_empty_view _ _ (Or.inl rfl)

/-- Claim C3: the filtered view is a sub-list of the dataset: every record
of the result occurs in the dataset and no record occurs more often in the
result than in the dataset (nothing fabricated, nothing duplicated). -/
theorem claim3_filter_is_subset (ds : List Record) (c : Criteria) :
    (apply ds c).Sublist ds ∧
      (∀ r ∈ apply ds c, r ∈ ds) ∧
      (∀ r : Record, (apply ds c).count r ≤ ds.count r) := by
  refine ⟨List.filter_sublist ds, fun r hr => ?_, fun r => ?_⟩
  · exact ((mem_apply_iff ds c r).mp hr).1
  · exact List.Sublist.count_le (List.filter_sublist ds) r

/-- Claim C4: widening exactly one of the three category sets, the other
criteria unchanged, never decreases the order count of the filtered view. -/
theorem claim4_widening_monotone (ds : List Record) (c1 c2 : Criteria)
    (hds : c1.date_start = c2.date_start) (hde : c1.date_end = c2.date_end)
    (h : (c1.cities ⊆ c2.cities ∧ c1.products = c2.products ∧ c1.payments = c2.payments) ∨
         (c1.cities = c2.cities ∧ c1.products ⊆ c2.products ∧ c1.payments = c2.payments) ∨
         (c1.cities = c2.cities ∧ c1.products = c2.products ∧ c1.payments ⊆ c2.payments)) :
    order_count (apply ds c1) ≤ order_count (apply ds c2) := by
  unfold order_count apply
  rw [← List.countP_eq_length_filter, ← List.countP_eq_length_filter]
  refine List.countP_mono_left (fun r _ hr => ?_)
  rw [matchesRec_iff] at hr ⊢
  obtain ⟨h1, h2, h3, h4, h5⟩ := hr
  rw [hds] at h1; rw [hde] at h2
  rcases h with ⟨hc, hp, hy⟩ | ⟨hc, hp, hy⟩ | ⟨hc, hp, hy⟩
  · exact ⟨h1, h2, hc h3, hp ▸ h4, hy ▸ h5⟩
  · exact ⟨h1, h2, hc ▸ h3, hp h4, hy ▸ h5⟩
  · exact ⟨h1, h2, hc ▸ h3, hp ▸ h4, hy h5⟩

theorem claim4_witness :
    order_count (apply [⟨⟨2023, 1, 5⟩, "Paris", "A", "card", "X", 2, 10⟩]
        ⟨⟨2023, 1, 1⟩, ⟨2023, 12, 31⟩, [], ["A"], ["card"]⟩) ≤
      order_count (apply [⟨⟨2023, 1, 5⟩, "Paris", "A", "card", "X", 2, 10⟩]
        ⟨⟨2023, 1, 1⟩, ⟨2023, 12, 31⟩, ["Paris"], ["A"], ["card"]⟩) :=
  claim4_widening_monotone _ _ _ rfl rfl
    (Or.inl ⟨by intro x hx; exact absurd hx (List.not_mem_nil _), rfl, rfl⟩)

/-- Claim C5: the four scalar metrics of src 109-117 are the sum of
quantities, the sum of `quantity * price` recomputed per record, the number
of records, and the number of distinct customer names; on the empty view
all four are zero and nothing is raised. -/
theorem claim5_metrics (v : List Record) :
    total_quantity v = (v.map (fun r => r.quantity)).sum ∧
    total_revenue v = (v.map (fun r => (r.quantity : ℚ) * r.price)).sum ∧
    order_count v = v.length ∧
    unique_customer_count v = (v.map (fun r => r.customer_name)).toFinset.card ∧
    total_quantity [] = 0 ∧ total_revenue [] = 0 ∧
    order_count [] = 0 ∧ unique_customer_count [] = 0 := by
  refine ⟨rfl, rfl, rfl, ?_, rfl, rfl, rfl, rfl⟩
  rw [List.card_toFinset]; rfl

/-- `series.value_counts().reset_index()` (src lines 130, 142, 196): one
row per distinct value of the column, with its number of occurrences,
sorted by count descending (ties keep the stable underlying order). -/
def countBy (f : Record → String) (v : List Record) : List (String × Nat) :=
  ((v.map f).dedup.map (fun k => (k, v.countP (fun r => f r == k)))).mergeSort
    (fun a b => decide (b.2 ≤ a.2))

/-- `filtered_data['city'].value_counts().reset_index()` (src line 130). -/
def countByCity (v : List Record) : List (String × Nat) := countBy (fun r => r.city) v

/-- `filtered_data['product'].value_counts().reset_index()` (src line 142). -/
def countByProduct (v : List Record) : List (String × Nat) :=
  countBy (fun r => r.product) v

/-- `filtered_data['payment_method'].value_counts().reset_index()` (src line 196). -/
def countByPaymentMethod (v : List Record) : List (String × Nat) :=
  countBy (fun r => r.payment_method) v

theorem countBy_perm (f : Record → String) (v : List Record) :
    (countBy f v).Perm
      ((v.map f).dedup.map (fun k => (k, v.countP (fun r => f r == k)))) :=
  List.mergeSort_perm _ _

theorem countBy_keys_perm (f : Record → String) (v : List Record) :
    ((countBy f v).map Prod.fst).Perm (v.map f).dedup := by
  have h := (countBy_perm f v).map Prod.fst
  simpa [List.map_map, Function.comp_def] using h

theorem countBy_keys_nodup (f : Record → String) (v : List Record) :
    ((countBy f v).map Prod.fst).Nodup :=
  ((countBy_keys_perm f v).nodup_iff).mpr (List.nodup_dedup _)

theorem countBy_mem_keys (f : Record → String) (v : List Record) (s : String) :
    s ∈ (countBy f v).map Prod.fst ↔ s ∈ v.map f := by
  rw [(countBy_keys_perm f v).mem_iff, List.mem_dedup]

theorem countBy_counts (f : Record → String) (v : List Record)
    (p : String × Nat) (hp : p ∈ countBy f v) :
    p.2 = v.countP (fun r => f r == p.1) := by
  have h := (countBy_perm f v).mem_iff.mp hp
  obtain ⟨k, _, rfl⟩ := List.mem_map.mp h
  rfl

theorem countBy_sorted (f : Record → String) (v : List Record) :
    List.Pairwise (fun a b : String × Nat => b.2 ≤ a.2) (countBy f v) := by
  have h := @List.sorted_mergeSort (String × Nat)
    (fun a b => decide (b.2 ≤ a.2))
    (fun a b c hab hbc => by
      simp only [decide_eq_true_eq] at hab hbc ⊢; omega)
    (fun a b => by
      simp only [Bool.or_eq_true, decide_eq_true_eq]; omega)
    ((v.map f).dedup.map (fun k => (k, v.countP (fun r => f r == k))))
  exact h.imp (fun hab => by simpa using hab)

theorem countBy_nil (f : Record → String) : countBy f [] = [] := by
  simp [countBy]

theorem countBy_spec (f : Record → String) (v : List Record) :
    ((countBy f v).map Prod.fst).Nodup ∧
    (∀ s, s ∈ (countBy f v).map Prod.fst ↔ ∃ r ∈ v, f r = s) ∧
    (∀ p ∈ countBy f v, p.2 = (v.filter (fun r => f r == p.1)).length) ∧
    List.Pairwise (fun a b : String × Nat => b.2 ≤ a.2) (countBy f v) ∧
    countBy f [] = [] := by
  refine ⟨countBy_keys_nodup f v, fun s => ?_, fun p hp => ?_,
          countBy_sorted f v, countBy_nil f⟩
  · rw [countBy_mem_keys]
    simp [List.mem_map]
  · rw [countBy_counts f v p hp, List.countP_eq_length_filter]

/-- Claim C6: each of `countByCity`, `countByProduct` and
`countByPaymentMethod` returns one row per distinct value present in the
view, paired with the number of records carrying that value, ordered
descending by count, and returns the empty sequence on the empty view. -/
theorem claim6_value_counts (v : List Record) :
    (((countByCity v).map Prod.fst).Nodup ∧
     (∀ s, s ∈ (countByCity v).map Prod.fst ↔ ∃ r ∈ v, r.city = s) ∧
     (∀ p ∈ countByCity v, p.2 = (v.filter (fun r => r.city == p.1)).length) ∧
     List.Pairwise (fun a b : String × Nat => b.2 ≤ a.2) (countByCity v) ∧
     countByCity [] = []) ∧
    (((countByProduct v).map Prod.fst).Nodup ∧
     (∀ s, s ∈ (countByProduct v).map Prod.fst ↔ ∃ r ∈ v, r.product = s) ∧
     (∀ p ∈ countByProduct v, p.2 = (v.filter (fun r => r.product == p.1)).length) ∧
     List.Pairwise (fun a b : String × Nat => b.2 ≤ a.2) (countByProduct v) ∧
     countByProduct [] = []) ∧
    (((countByPaymentMethod v).map Prod.fst).Nodup ∧
     (∀ s, s ∈ (countByPaymentMethod v).map Prod.fst ↔
        ∃ r ∈ v, r.payment_method = s) ∧
     (∀ p ∈ countByPaymentMethod v,
        p.2 = (v.filter (fun r => r.payment_method == p.1)).length) ∧
     List.Pairwise (fun a b : String × Nat => b.2 ≤ a.2) (countByPaymentMethod v) ∧
     countByPaymentMethod [] = []) := by
  exact ⟨countBy_spec (fun r => r.city) v,
         countBy_spec (fun r => r.product) v,
         countBy_spec (fun r => r.payment_method) v⟩

/-- `groupby` key order: pandas sorts string group keys ascending. -/
def sortedKeys (ks : List String) : List String :=
  ks.mergeSort (fun a b => decide (a ≤ b))

/-- `filtered_data.groupby(col)['revenue'].sum().reset_index()`
(src lines 208 and 221): one row per distinct key, keys sorted ascending,
value = the summed revenue of the records carrying that key. -/
def groupSum (f : Record → String) (v : List Record) : List (String × ℚ) :=
  (sortedKeys (v.map f).dedup).map
    (fun k => (k, ((v.filter (fun r => f r == k)).map revenue).sum))

/-- `filtered_data.groupby('payment_method')['revenue'].sum().reset_index()`
(src line 208). -/
def revenueByPaymentMethod (v : List Record) : List (String × ℚ) :=
  groupSum (fun r => r.payment_method) v

/-- `filtered_data.groupby('customer_name')['revenue'].sum().nlargest(n)
.reset_index()` (src line 221): group sums sorted descending by value
(`nlargest` keeps earlier rows on ties), truncated to `n` rows. -/
def topCustomersByRevenue (v : List Record) (n : Nat) : List (String × ℚ) :=
  ((groupSum (fun r => r.customer_name) v).mergeSort
    (fun a b => decide (b.2 ≤ a.2))).take n

theorem groupSum_keys_perm (f : Record → String) (v : List Record) :
    ((groupSum f v).map Prod.fst).Perm (v.map f).dedup := by
  unfold groupSum
  rw [List.map_map]
  have h1 : (List.map (Prod.fst ∘ fun k =>
      (k, ((v.filter (fun r => f r == k)).map revenue).sum))
      (sortedKeys (v.map f).dedup)) = sortedKeys (v.map f).dedup := by
    simp [Function.comp_def]
  rw [h1]
  exact List.mergeSort_perm _ _

theorem groupSum_length (f : Record → String) (v : List Record) :
    (groupSum f v).length = (v.map f).dedup.length := by
  have h := (groupSum_keys_perm f v).length_eq
  rwa [List.length_map] at h

theorem groupSum_mem (f : Record → String) (v : List Record)
    (p : String × ℚ) (hp : p ∈ groupSum f v) :
    p.2 = ((v.filter (fun r => f r == p.1)).map revenue).sum ∧ p.1 ∈ v.map f := by
  unfold groupSum at hp
  obtain ⟨k, hk, rfl⟩ := List.mem_map.mp hp
  have hk2 : k ∈ (v.map f).dedup := (List.mergeSort_perm _ _).mem_iff.mp hk
  exact ⟨rfl, List.mem_dedup.mp hk2⟩

/-- Summing a function fiber-by-fiber over any finite set of keys that
covers the list gives the total sum over the list. -/
theorem sum_fiber {M : Type} [AddCommMonoid M] (f : Record → String) (g : Record → M)
    (v : List Record) (s : Finset String) (hs : ∀ r ∈ v, f r ∈ s) :
    (∑ k ∈ s, ((v.filter (fun r => f r == k)).map g).sum) = (v.map g).sum := by
  induction v with
  | nil => simp
  | cons r v ih =>
    have hr : f r ∈ s := hs r (List.mem_cons_self r v)
    have hv : ∀ x ∈ v, f x ∈ s := fun x hx => hs x (List.mem_cons_of_mem r hx)
    have step : ∀ k ∈ s, ((List.filter (fun x => f x == k) (r :: v)).map g).sum
        = (if f r = k then g r else 0) +
          ((List.filter (fun x => f x == k) v).map g).sum := by
      intro k _
      by_cases h : f r = k
      · simp [List.filter_cons, h]
      · simp [List.filter_cons, h]
    rw [Finset.sum_congr rfl step, Finset.sum_add_distrib, ih hv,
        Finset.sum_ite_eq s (f r) (fun _ => g r), if_pos hr]
    simp

theorem sum_over_dedup {M : Type} [AddCommMonoid M] (f : Record → String)
    (g : Record → M) (v : List Record) :
    ((v.map f).dedup.map
      (fun k => ((v.filter (fun r => f r == k)).map g).sum)).sum = (v.map g).sum := by
  have hnd : (v.map f).dedup.Nodup := List.nodup_dedup _
  have hto : (v.map f).dedup.toFinset = (v.map f).toFinset := by
    ext x; simp [List.mem_toFinset, List.mem_dedup]
  rw [← List.sum_toFinset _ hnd, hto]
  refine sum_fiber f g v _ (fun r hr => ?_)
  rw [List.mem_toFinset]
  exact List.mem_map_of_mem f hr

/-- Claim C10: the grouped views partition the filtered view consistently
with the scalar metrics — the counts of `countByCity` sum to `order_count`
and the revenues of `revenueByPaymentMethod` sum to `total_revenue`. -/
theorem claim10_aggregations_partition_the_view (v : List Record) :
    ((countByCity v).map Prod.snd).sum = order_count v ∧
    ((revenueByPaymentMethod v).map Prod.snd).sum = total_revenue v := by
  constructor
  · show ((countBy (fun r => r.city) v).map Prod.snd).sum = order_count v
    have hperm := (countBy_perm (fun r => r.city) v).map Prod.snd
    rw [List.map_map] at hperm
    rw [hperm.sum_eq]
    have : (List.map (Prod.snd ∘ fun k =>
        (k, v.countP (fun r => r.city == k))) (v.map (fun r => r.city)).dedup)
        = (v.map (fun r => r.city)).dedup.map
            (fun k => ((v.filter (fun r => r.city == k)).map (fun _ => 1)).sum) := by
      simp [Function.comp_def, List.countP_eq_length_filter]
    rw [this, sum_over_dedup (fun r => r.city) (fun _ => (1 : ℕ)) v]
    simp [order_count]
  · unfold revenueByPaymentMethod groupSum
    rw [List.map_map]
    have h1 : (List.map (Prod.snd ∘ fun k =>
        (k, ((v.filter (fun r => r.payment_method == k)).map revenue).sum))
        (sortedKeys (v.map (fun r => r.payment_method)).dedup))
        = (sortedKeys (v.map (fun r => r.payment_method)).dedup).map
            (fun k => ((v.filter (fun r => r.payment_method == k)).map revenue).sum) := by
      simp [Function.comp_def]
    rw [h1]
    have hperm : ((sortedKeys (v.map (fun r => r.payment_method)).dedup).map
        (fun k => ((v.filter (fun r => r.payment_method == k)).map revenue).sum)).Perm
        ((v.map (fun r => r.payment_method)).dedup.map
          (fun k => ((v.filter (fun r => r.payment_method == k)).map revenue).sum)) :=
      (List.mergeSort_perm _ _).map _
    rw [hperm.sum_eq, sum_over_dedup (fun r => r.payment_method) revenue v]
    rfl

theorem topCustomers_sorted (v : List Record) :
    List.Pairwise (fun a b : String × ℚ => b.2 ≤ a.2)
      ((groupSum (fun r => r.customer_name) v).mergeSort
        (fun a b => decide (b.2 ≤ a.2))) := by
  have h := @List.sorted_mergeSort (String × ℚ)
    (fun a b => decide (b.2 ≤ a.2))
    (fun a b c hab hbc => by
      simp only [decide_eq_true_eq] at hab hbc ⊢
      exact le_trans hbc hab)
    (fun a b => by
      simp only [Bool.or_eq_true, decide_eq_true_eq]
      exact le_total b.2 a.2)
    (groupSum (fun r => r.customer_name) v)
  exact h.imp (fun hab => by simpa using hab)

/-- Claim C7: `topCustomersByRevenue(view, 10)` returns `min 10 k` rows
where `k` is the number of distinct customers (so all of them when fewer
than 10 exist), with pairwise-distinct customers, sorted descending by
revenue, and each row's revenue is the sum of `quantity * price` over
exactly that customer's records in the view. -/
theorem claim7_top_customers (v : List Record) :
    (topCustomersByRevenue v 10).length = min 10 (unique_customer_count v) ∧
    List.Pairwise (fun a b : String × ℚ => b.2 ≤ a.2) (topCustomersByRevenue v 10) ∧
    (∀ p ∈ topCustomersByRevenue v 10,
      p.2 = ((v.filter (fun r => r.customer_name == p.1)).map revenue).sum ∧
      p.1 ∈ v.map (fun r => r.customer_name)) ∧
    ((topCustomersByRevenue v 10).map Prod.fst).Nodup ∧
    (unique_customer_count v ≤ 10 →
      ∀ s ∈ v.map (fun r => r.customer_name),
        s ∈ (topCustomersByRevenue v 10).map Prod.fst) := by
  have hlen : ((groupSum (fun r => r.customer_name) v).mergeSort
      (fun a b => decide (b.2 ≤ a.2))).length = unique_customer_count v := by
    rw [(List.mergeSort_perm _ _).length_eq, groupSum_length]
    rfl
  have hmemL : ∀ p ∈ topCustomersByRevenue v 10,
      p ∈ groupSum (fun r => r.customer_name) v := by
    intro p hp
    exact (List.mergeSort_perm _ _).mem_iff.mp
      (List.Sublist.mem hp (List.take_sublist _ _))
  have hkeys : (((groupSum (fun r => r.customer_name) v).mergeSort
      (fun a b => decide (b.2 ≤ a.2))).map Prod.fst).Perm
      (v.map (fun r => r.customer_name)).dedup :=
    ((List.mergeSort_perm _ _).map Prod.fst).trans
      (groupSum_keys_perm (fun r => r.customer_name) v)
  refine ⟨?_, ?_, fun p hp => groupSum_mem _ v p (hmemL p hp), ?_, ?_⟩
  · rw [topCustomersByRevenue, List.length_take, hlen]
  · exact List.Pairwise.sublist (List.take_sublist _ _) (topCustomers_sorted v)
  · rw [topCustomersByRevenue, List.map_take]
    exact List.Nodup.sublist (List.take_sublist _ _)
      (hkeys.nodup_iff.mpr (List.nodup_dedup _))
  · intro hle s hs
    rw [topCustomersByRevenue, List.take_of_length_le (by rw [hlen]; exact hle)]
    exact hkeys.mem_iff.mpr (List.mem_dedup.mpr hs)

/-- The aggregation period of the radio control (src 156-162):
`{'Journalière': 'D', 'Mensuelle': 'M', 'Trimestrielle': 'Q'}`. -/
inductive Granularity where
  | Daily
  | Monthly
  | Quarterly
deriving DecidableEq, Repr

/-- Gregorian leap year, as pandas computes month lengths. -/
def isLeap (y : Nat) : Bool :=
  y % 4 == 0 && (y % 100 != 0 || y % 400 == 0)

/-- Number of days of month `m` of year `y`. -/
def daysInMonth (y m : Nat) : Nat :=
  if m = 2 then (if isLeap y then 29 else 28)
  else if m = 4 ∨ m = 6 ∨ m = 9 ∨ m = 11 then 30
  else 31

/-- The last day of month `m` of year `y`. -/
def monthEnd (y m : Nat) : Date := ⟨y, m, daysInMonth y m⟩

/-- The closing month of the calendar quarter containing month `m`. -/
def quarterEndMonth (m : Nat) : Nat :=
  if m ≤ 3 then 3 else if m ≤ 6 then 6 else if m ≤ 9 then 9 else 12

/-- The label pandas gives the `freq`-bin containing date `d`
(src line 163): frequency `D` labels a bin by the day itself, `M` by the
last day of the calendar month, `Q` by the last day of the calendar
quarter. -/
def binLabel (g : Granularity) (d : Date) : Date :=
  match g with
  | .Daily => d
  | .Monthly => monthEnd d.year d.month
  | .Quarterly => monthEnd d.year (quarterEndMonth d.month)

/-- The calendar day after `d`. -/
def nextDay (d : Date) : Date :=
  if d.day < daysInMonth d.year d.month then ⟨d.year, d.month, d.day + 1⟩
  else if d.month < 12 then ⟨d.year, d.month + 1, 1⟩
  else ⟨d.year + 1, 1, 1⟩

/-- The label of the bin following the bin labelled `d`. -/
def nextLabel (g : Granularity) (d : Date) : Date :=
  match g with
  | .Daily => nextDay d
  | .Monthly =>
      if d.month < 12 then monthEnd d.year (d.month + 1)
      else monthEnd (d.year + 1) 1
  | .Quarterly =>
      if d.month + 3 ≤ 12 then monthEnd d.year (d.month + 3)
      else monthEnd (d.year + 1) (d.month + 3 - 12)

/-- Fuel bounding the number of bins up to the last label: one bin needs
at least one day, and `500 * year + 40 * month + day` strictly increases
from each valid label to the next. -/
def binFuel (last : Date) : Nat := 500 * last.year + 40 * last.month + last.day + 600

/-- The consecutive bin labels from `d` up to `last`, as the pandas
`Grouper` generates them for the span of the data. -/
def labelsFrom (g : Granularity) : Nat → Date → Date → List Date
  | 0, _, _ => []
  | fuel + 1, d, last =>
    if Date.ble d last then d :: labelsFrom g fuel (nextLabel g d) last else []

/-- The earlier of two dates. -/
def dmin (a b : Date) : Date := if Date.ble a b then a else b

/-- The later of two dates. -/
def dmax (a b : Date) : Date := if Date.ble a b then b else a

/-- The labels of all `freq`-bins spanned by the view, from the bin of its
earliest order date to the bin of its latest (empty on an empty view):
`pd.Grouper(key='order_date', freq=...)` generates this complete range of
regular bins. -/
def viewLabels (v : List Record) (g : Granularity) : List Date :=
  match v with
  | [] => []
  | r :: rs =>
    labelsFrom g
      (binFuel (binLabel g ((rs.map (fun x => x.order_date)).foldl dmax r.order_date)))
      (binLabel g ((rs.map (fun x => x.order_date)).foldl dmin r.order_date))
      (binLabel g ((rs.map (fun x => x.order_date)).foldl dmax r.order_date))

/-- `filtered_data.groupby(pd.Grouper(key='order_date', freq=...))
['revenue'].sum().reset_index()` (src line 163): one row per generated
bin — bins with no record included, with sum 0 — each labelled by the
bin label and carrying the summed revenue of the records it contains. -/
def revenueOverTime (v : List Record) (g : Granularity) : List (Date × ℚ) :=
  (viewLabels v g).map
    (fun b => (b, ((v.filter (fun r => binLabel g r.order_date == b)).map revenue).sum))

theorem ble_of_blt {a b : Date} (h : Date.blt a b = true) : Date.ble a b = true := by
  rw [Date.blt_iff] at h
  rw [Date.ble_iff]
  rcases h with h | ⟨h1, h2 | ⟨h2, h3⟩⟩
  · exact Or.inl h
  · exact Or.inr ⟨h1, Or.inl h2⟩
  · exact Or.inr ⟨h1, Or.inr ⟨h2, Nat.le_of_lt h3⟩⟩

theorem blt_of_blt_of_ble {a b c : Date} (h1 : Date.blt a b = true)
    (h2 : Date.ble b c = true) : Date.blt a c = true := by
  rw [Date.blt_iff] at h1 ⊢
  rw [Date.ble_iff] at h2
  rcases h1 with h1 | ⟨e1, h1⟩ <;> rcases h2 with h2 | ⟨e2, h2⟩
  · omega
  · omega
  · omega
  · rcases h1 with h1 | ⟨f1, h1⟩ <;> rcases h2 with h2 | ⟨f2, h2⟩ <;>
      right <;> exact ⟨by omega, by omega⟩

theorem nextLabel_blt (g : Granularity) (d : Date) :
    Date.blt d (nextLabel g d) = true := by
  cases g with
  | Daily =>
    show Date.blt d (nextDay d) = true
    unfold nextDay
    split_ifs with h1 h2 <;> rw [Date.blt_iff] <;> simp <;> omega
  | Monthly =>
    show Date.blt d (if d.month < 12 then monthEnd d.year (d.month + 1)
      else monthEnd (d.year + 1) 1) = true
    split_ifs with h <;> rw [Date.blt_iff] <;> simp [monthEnd] <;> omega
  | Quarterly =>
    show Date.blt d (if d.month + 3 ≤ 12 then monthEnd d.year (d.month + 3)
      else monthEnd (d.year + 1) (d.month + 3 - 12)) = true
    split_ifs with h <;> rw [Date.blt_iff] <;> simp [monthEnd] <;> omega

theorem labelsFrom_ble (g : Granularity) : ∀ (fuel : Nat) (d last x : Date),
    x ∈ labelsFrom g fuel d last → Date.ble d x = true := by
  intro fuel
  induction fuel with
  | zero => intro d last x hx; simp [labelsFrom] at hx
  | succ n ih =>
    intro d last x hx
    simp only [labelsFrom] at hx
    split_ifs at hx with h
    · rcases List.mem_cons.mp hx with rfl | hx2
      · exact Date.ble_refl x
      · exact Date.ble_trans (ble_of_blt (nextLabel_blt g d)) (ih _ _ _ hx2)
    · simp at hx

theorem labelsFrom_pairwise (g : Granularity) : ∀ (fuel : Nat) (d last : Date),
    List.Pairwise (fun a b => Date.blt a b = true) (labelsFrom g fuel d last) := by
  intro fuel
  induction fuel with
  | zero => intro d last; simp [labelsFrom]
  | succ n ih =>
    intro d last
    simp only [labelsFrom]
    split_ifs with h
    · refine List.Pairwise.cons (fun y hy => ?_) (ih _ _)
      exact blt_of_blt_of_ble (nextLabel_blt g d) (labelsFrom_ble g n _ _ _ hy)
    · exact List.Pairwise.nil

theorem viewLabels_pairwise (v : List Record) (g : Granularity) :
    List.Pairwise (fun a b => Date.blt a b = true) (viewLabels v g) := by
  cases v with
  | nil => exact List.Pairwise.nil
  | cons r rs => exact labelsFrom_pairwise g _ _ _

theorem revenueOverTime_values (v : List Record) (g : Granularity)
    (p : Date × ℚ) (hp : p ∈ revenueOverTime v g) :
    p.2 = ((v.filter (fun r => binLabel g r.order_date == p.1)).map revenue).sum := by
  unfold revenueOverTime at hp
  obtain ⟨b, _, rfl⟩ := List.mem_map.mp hp
  rfl

/-- The two-record dataset of the spec's scenarios: an order of 2 units at
price 10 on 2023-01-05 and an order of 1 unit at price 50 on 2023-02-10. -/
def scenView : List Record :=
  [⟨⟨2023, 1, 5⟩, "Paris", "A", "card", "X", 2, 10⟩,
   ⟨⟨2023, 2, 10⟩, "Lyon", "B", "cash", "Y", 1, 50⟩]

/-- A view with orders in January and March 2023 only, leaving the
February monthly bucket without any record. -/
def gapView : List Record :=
  [⟨⟨2023, 1, 5⟩, "Paris", "A", "card", "X", 2, 10⟩,
   ⟨⟨2023, 3, 10⟩, "Lyon", "B", "cash", "Y", 1, 50⟩]

/-- Claim C8 is false as stated: on a view with orders only in January and
March 2023, the monthly time series has a row labelled 2023-02-28 although
the view has zero records in that bucket — `pd.Grouper(freq=...)` bins the
whole span and keeps empty bins (as rows summing to 0) instead of omitting
them. -/
theorem claim8_counterexample :
    (⟨2023, 2, 28⟩ : Date) ∈ (revenueOverTime gapView .Monthly).map Prod.fst ∧
    gapView.countP
      (fun r => binLabel .Monthly r.order_date == (⟨2023, 2, 28⟩ : Date)) = 0 := by
  decide

/-- Claim C8 as amended: for every view and granularity the time series is
sorted ascending by period start with strictly increasing, duplicate-free
bucket keys, and each row carries the summed revenue of the view's records
in its bucket; but bins inside the spanned range with zero records are not
omitted — they appear as rows with revenue 0, as the January/March view
shows concretely. -/
theorem claim8_time_series (v : List Record) (g : Granularity) :
    List.Pairwise (fun a b : Date × ℚ => Date.blt a.1 b.1 = true)
      (revenueOverTime v g) ∧
    (∀ p ∈ revenueOverTime v g,
      p.2 = ((v.filter (fun r => binLabel g r.order_date == p.1)).map revenue).sum) ∧
    revenueOverTime [] g = [] ∧
    revenueOverTime gapView .Monthly =
      [(⟨2023, 1, 31⟩, 20), (⟨2023, 2, 28⟩, 0), (⟨2023, 3, 31⟩, 50)] := by
  refine ⟨?_, revenueOverTime_values v g, rfl, ?_⟩
  · unfold revenueOverTime
    exact List.pairwise_map.mpr (viewLabels_pairwise v g)
  · have hl : viewLabels gapView .Monthly =
        [⟨2023, 1, 31⟩, ⟨2023, 2, 28⟩, ⟨2023, 3, 31⟩] := by decide
    show (viewLabels gapView .Monthly).map _ = _
    rw [hl]
    simp only [List.map]
    norm_num [revenue]

/-- Claim C9 is false as stated: the code labels the monthly bucket of
2023-01-05 with the last day of the month, 2023-01-31, not with
2023-01-01, and no bucket labelled 2023-01-01 occurs in the monthly series
of the spec's two-record scenario. -/
theorem claim9_counterexample :
    binLabel .Monthly ⟨2023, 1, 5⟩ ≠ (⟨2023, 1, 1⟩ : Date) ∧
    binLabel .Monthly ⟨2023, 1, 5⟩ = (⟨2023, 1, 31⟩ : Date) ∧
    ¬((⟨2023, 1, 1⟩ : Date) ∈ (revenueOverTime scenView .Monthly).map Prod.fst) := by
  decide

/-- Claim C9 as amended: bucketing maps a date to the date itself for
Daily, to the last day of its calendar month for Monthly, and to the last
day of its calendar quarter (closing months 3, 6, 9, 12) for Quarterly —
in particular a valid date never exceeds its bucket label — and monthly
bucketing of the scenario's two orders yields exactly the buckets
(2023-01-31, 20.0) and (2023-02-28, 50.0) in ascending order. -/
theorem claim9_bucket_labels (d : Date) :
    binLabel .Daily d = d ∧
    binLabel .Monthly d = ⟨d.year, d.month, daysInMonth d.year d.month⟩ ∧
    binLabel .Quarterly d =
      ⟨d.year, quarterEndMonth d.month, daysInMonth d.year (quarterEndMonth d.month)⟩ ∧
    (quarterEndMonth d.month = 3 ∨ quarterEndMonth d.month = 6 ∨
     quarterEndMonth d.month = 9 ∨ quarterEndMonth d.month = 12) ∧
    (d.month ≤ 12 → d.month ≤ quarterEndMonth d.month) ∧
    (d.day ≤ daysInMonth d.year d.month →
      Date.ble d (binLabel .Monthly d) = true) ∧
    (d.month ≤ 12 → d.day ≤ daysInMonth d.year d.month →
      Date.ble d (binLabel .Quarterly d) = true) ∧
    revenueOverTime scenView .Monthly =
      [(⟨2023, 1, 31⟩, 20), (⟨2023, 2, 28⟩, 50)] := by
  refine ⟨rfl, rfl, rfl, ?_, ?_, ?_, ?_, ?_⟩
  · unfold quarterEndMonth; split_ifs <;> simp
  · intro hm; unfold quarterEndMonth; split_ifs <;> omega
  · intro h
    rw [Date.ble_iff]
    exact Or.inr ⟨rfl, Or.inr ⟨rfl, h⟩⟩
  · intro hm h
    have hq : d.month ≤ quarterEndMonth d.month := by
      unfold quarterEndMonth; split_ifs <;> omega
    rw [Date.ble_iff]
    refine Or.inr ⟨rfl, ?_⟩
    show d.month < quarterEndMonth d.month ∨
      (d.month = quarterEndMonth d.month ∧
        d.day ≤ daysInMonth d.year (quarterEndMonth d.month))
    by_cases he : d.month = quarterEndMonth d.month
    · exact Or.inr ⟨he, by rw [← he]; exact h⟩
    · exact Or.inl (by omega)
  · have hl : viewLabels scenView .Monthly = [⟨2023, 1, 31⟩, ⟨2023, 2, 28⟩] := by decide
    show (viewLabels scenView .Monthly).map _ = _
    rw [hl]
    simp only [List.map]
    norm_num [revenue]

end Sales
